import Mathlib

/-!
# FaceDrawer.cpp — a shallow embedding

The program parses a string of facial landmark coordinates, triangulates the
points with OpenCV's `Subdiv2D` and draws the points and triangle edges on an
image.  The embedding below follows `src/FaceDrawer.cpp` function by function.

* `std::string` is a `List Char` (the `data` of a Lean `String`).
* `size_t` is a `Nat` reduced modulo `2 ^ 64` where the source subtracts.
* `int` values (`x`, `y`, `width`, `frame_id`, ...) are `Int` within the range of
  a 32-bit `int`: `stoi` throws outside it, `atoi` keeps the low 32 bits, and the
  only arithmetic on them (`frame_id++` below `end_frame_id`, `0 + width`) cannot
  overflow.
* Exceptions are the `Except.error` results; no function of the source catches
  one.
* Drawing on the `cv::Mat` is the list of primitive draw calls issued, in order;
  the calls made before an exception stay in the image.
-/

namespace FaceDrawer

/-! ## Data model -/

/-- The `cv::Point` of the source: integer pixel coordinates. -/
structure Point where
  x : Int
  y : Int
deriving DecidableEq, Repr

/-- The exceptions `ParseFacialPoints` can meet: the two `std::stoi` throws, and
the `std::out_of_range` of `std::string::substr`. -/
inductive ParseError where
  | stoi_invalid_argument
  | stoi_out_of_range
  | substr_out_of_range
deriving DecidableEq, Repr

deriving instance DecidableEq for Except

/-! ## C and C++ library functions used by the parser -/

/-- The modulus of `size_t` arithmetic. -/
def SIZE_MOD : Nat := 2 ^ 64

/-- Largest `int`. -/
def INT_MAX : Int := 2147483647

/-- Smallest `int`. -/
def INT_MIN : Int := -2147483648

/-- The `isdigit` of `<ctype.h>` in the C locale. -/
def isdigit (c : Char) : Bool := 48 ≤ c.toNat && c.toNat ≤ 57

/-- The `isspace` of `<ctype.h>` in the C locale: space, `\t`, `\n`, `\v`, `\f`, `\r`. -/
def isspace (c : Char) : Bool := c.toNat == 32 || (9 ≤ c.toNat && c.toNat ≤ 13)

/-- Value of a run of decimal digits, most significant first, on top of `acc`. -/
def digitsValue : List Char → Nat → Nat
  | [], acc => acc
  | c :: cs, acc => digitsValue cs (10 * acc + (c.toNat - 48))

/-- The `std::string::substr (pos, len)`: throws when `pos > size ()`, otherwise the
characters from `pos`, at most `len` of them. -/
def substr (s : List Char) (pos len : Nat) : Except ParseError (List Char) :=
  if pos > s.length then .error .substr_out_of_range
  else .ok ((s.drop pos).take len)

/-- The scan that `strtol` and `atoi` share in base 10: leading white space is
skipped, one optional sign is read, then the longest run of digits; what follows
is ignored.  `none` when there is no digit to convert. -/
def strtolScan (str : List Char) : Option Int :=
  let body := str.dropWhile isspace
  let signed : Bool × List Char :=
    match body with
    | [] => (false, body)
    | c :: t => if c = '-' then (true, t) else if c = '+' then (false, t) else (false, body)
  let digits := signed.2.takeWhile isdigit
  if digits.isEmpty then none
  else
    let magnitude : Int := (digitsValue digits 0 : Nat)
    some (if signed.1 then -magnitude else magnitude)

/-- The `std::stoi (str)` of the C++ standard library (`strtol`, base 10).  No
digit: `std::invalid_argument`.  A value outside `int`: `std::out_of_range`. -/
def stoi (str : List Char) : Except ParseError Int :=
  match strtolScan str with
  | none => .error .stoi_invalid_argument
  | some value =>
    if INT_MIN ≤ value ∧ value ≤ INT_MAX then .ok value else .error .stoi_out_of_range

/-- The `size_t` expression `end - begin + 1`, with the wrap-around of unsigned
arithmetic. -/
def spanLength (begin_ end_ : Nat) : Nat :=
  ((end_ + SIZE_MOD - begin_) % SIZE_MOD + 1) % SIZE_MOD

/-! ## ParseFacialPoints -/

/-- The local variables of `ParseFacialPoints` that live across loop iterations:
`begin`, `end`, `x` and the vector `facial_points`. -/
structure ScanState where
  begin_ : Nat
  end_ : Nat
  x : Int
  facial_points : List Point
deriving DecidableEq, Repr

/-- One iteration of the `for` loop of `ParseFacialPoints`, at index `i` with
`curr_char = facial_string.at (i)`. -/
def loopBody (facial_string : List Char) (st : ScanState) (i : Nat) (curr_char : Char) :
    Except ParseError ScanState :=
  if !isdigit curr_char && curr_char != '.' then
    if curr_char == ' ' then
      match substr facial_string st.begin_ (spanLength st.begin_ st.end_) with
      | .error e => .error e
      | .ok value =>
        match stoi value with
        | .error e => .error e
        | .ok x => .ok { st with x := x, begin_ := i + 1, end_ := i + 1 }
    else if curr_char == ',' then
      match substr facial_string st.begin_ (spanLength st.begin_ st.end_) with
      | .error e => .error e
      | .ok value =>
        match stoi value with
        | .error e => .error e
        | .ok y =>
          .ok { st with facial_points := st.facial_points ++ [⟨st.x, y⟩],
                        begin_ := i + 1, end_ := i + 1 }
    else .ok st
  else .ok { st with end_ := i }

/-- The `for (size_t i = 0; i < facial_string.size (); i++)` loop, from index `i`
on: `rest` holds the characters at the indices `i, i + 1, ...` still to visit. -/
def scanFrom (facial_string : List Char) : List Char → Nat → ScanState →
    Except ParseError ScanState
  | [], _, st => .ok st
  | curr_char :: rest, i, st =>
    match loopBody facial_string st i curr_char with
    | .error e => .error e
    | .ok st' => scanFrom facial_string rest (i + 1) st'

/-- The state at loop entry; `x0` is the indeterminate value of the
uninitialised local `x`. -/
def initialState (x0 : Int) : ScanState :=
  { begin_ := 0, end_ := 0, x := x0, facial_points := [] }

/-- The function `ParseFacialPoints` of the source. -/
def ParseFacialPoints (x0 : Int) (facial_string : String) : Except ParseError (List Point) :=
  match scanFrom facial_string.data facial_string.data 0 (initialState x0) with
  | .error e => .error e
  | .ok st => .ok st.facial_points

/-! ## Drawing -/

/-- The `cv::Scalar` colours of the source, by their first three channels. -/
structure Scalar where
  v0 : Int
  v1 : Int
  v2 : Int
deriving DecidableEq, Repr

/-- The global `dot_color`. -/
def dot_color : Scalar := ⟨180, 244, 66⟩

/-- The global `line_color`. -/
def line_color : Scalar := ⟨15, 100, 15⟩

/-- A call of an OpenCV drawing primitive on the image: `cv::circle (image, center,
radius, color, thickness)` or `cv::line (image, p1, p2, color, thickness,
lineType)`. -/
inductive DrawCall where
  | circle (center : Point) (radius : Int) (color : Scalar) (thickness : Int)
  | line (p1 p2 : Point) (color : Scalar) (thickness : Int) (lineType : Int)
deriving DecidableEq, Repr

/-- The pixel buffer behind a `cv::Mat`, as the draw calls applied to it so far. -/
abbrev Image := List DrawCall

/-- The function `DrawPoint` of the source. -/
def DrawPoint (image : Image) (point : Point) : Image :=
  image ++ [DrawCall.circle point 5 dot_color (-1)]

/-- The function `DrawPoints` of the source: the loop over `points`. -/
def DrawPoints (image : Image) : List Point → Image
  | [] => image
  | point :: rest => DrawPoints (DrawPoint image point) rest

/-- The function `DrawLine` of the source. -/
def DrawLine (image : Image) (p1 p2 : Point) : Image :=
  image ++ [DrawCall.line p1 p2 line_color 2 4]

/-- The `cv::Rect` of OpenCV. -/
structure Rect where
  x : Int
  y : Int
  width : Int
  height : Int
deriving DecidableEq, Repr

/-- The `cv::Rect::contains` of OpenCV:
`x <= pt.x && pt.x < x + width && y <= pt.y && pt.y < y + height`. -/
def Rect.contains (r : Rect) (pt : Point) : Bool :=
  decide (r.x ≤ pt.x) && decide (pt.x < r.x + r.width) &&
    decide (r.y ≤ pt.y) && decide (pt.y < r.y + r.height)

/-- The `cv::Vec6f` of OpenCV, over a type `F` of coordinate values. -/
structure Vec6 (F : Type) where
  v0 : F
  v1 : F
  v2 : F
  v3 : F
  v4 : F
  v5 : F
deriving DecidableEq, Repr

/-- An exception thrown by an OpenCV call (`cv::Exception` and its code). -/
structure CvError where
  code : Int
deriving DecidableEq, Repr

/-- The part of OpenCV that `DrawDelaunayTriangles` calls and that is not in the
source: the `cv::Subdiv2D` constructor, `insert` and `getTriangleList` over the
states `S` of a subdivision, each of which may throw, and `cvRound` from the
coordinate values `F` of a `Vec6f` to `int`. -/
structure OpenCV (F S : Type) where
  Subdiv2D : Rect → Except CvError S
  insert : S → Point → Except CvError S
  getTriangleList : S → Except CvError (List (Vec6 F))
  cvRound : F → Int

/-- The first loop of `DrawDelaunayTriangles`: for each point, `DrawPoint` when
`drawPoints` is set, then `subdiv.insert`.  The result is the image as the loop
leaves it, also when an `insert` throws, with the subdivision or the exception. -/
def insertLoop {F S : Type} (cv : OpenCV F S) (drawPoints : Bool) :
    List Point → Image → S → Image × Except CvError S
  | [], image, subdiv => (image, .ok subdiv)
  | point :: rest, image, subdiv =>
    let image' := if drawPoints then DrawPoint image point else image
    match cv.insert subdiv point with
    | .error e => (image', .error e)
    | .ok subdiv' => insertLoop cv drawPoints rest image' subdiv'

/-- The second loop of `DrawDelaunayTriangles`: for each triangle, round the
three vertices and draw the three edges when `screen_space` contains all of them. -/
def triangleLoop {F S : Type} (cv : OpenCV F S) (screen_space : Rect) :
    List (Vec6 F) → Image → Image
  | [], image => image
  | triangle :: rest, image =>
    let pt1 : Point := ⟨cv.cvRound triangle.v0, cv.cvRound triangle.v1⟩
    let pt2 : Point := ⟨cv.cvRound triangle.v2, cv.cvRound triangle.v3⟩
    let pt3 : Point := ⟨cv.cvRound triangle.v4, cv.cvRound triangle.v5⟩
    if screen_space.contains pt1 && screen_space.contains pt2 && screen_space.contains pt3 then
      triangleLoop cv screen_space rest
        (DrawLine (DrawLine (DrawLine image pt1 pt2) pt2 pt3) pt3 pt1)
    else triangleLoop cv screen_space rest image

/-- The function `DrawDelaunayTriangles` of the source.  The `cv::Mat` shares its
pixels with the caller, so the result holds the image with every draw call made,
also when an OpenCV call throws, and the outcome: the return or the exception. -/
def DrawDelaunayTriangles {F S : Type} (cv : OpenCV F S) (image : Image)
    (points : List Point) (width height : Int) (drawPoints : Bool) :
    Image × Except CvError Unit :=
  let screen_space : Rect := ⟨0, 0, width, height⟩
  match cv.Subdiv2D screen_space with
  | .error e => (image, .error e)
  | .ok subdiv =>
    match insertLoop cv drawPoints points image subdiv with
    | (image', .error e) => (image', .error e)
    | (image', .ok subdiv') =>
      match cv.getTriangleList subdiv' with
      | .error e => (image', .error e)
      | .ok triangles => (triangleLoop cv screen_space triangles image', .ok ())

/-! ## TriangulateImage and main -/

/-- An instance of the OpenCV interface for evaluating the drawing code on a
given triangle list: whole-number coordinates (which `cvRound` leaves as they
are), no call throws, and `getTriangleList` returns `triangles`. -/
def cannedOpenCV (triangles : List (Vec6 Int)) : OpenCV Int Unit where
  Subdiv2D := fun _ => .ok ()
  insert := fun _ _ => .ok ()
  getTriangleList := fun _ => .ok triangles
  cvRound := fun v => v

/-- An instance of the OpenCV interface whose `insert` does what
`cv::Subdiv2D::insert` is documented to do with a point outside the rectangle of
the subdivision: it raises an error (`StsOutOfRange`, code -211).  The state is the
rectangle; `getTriangleList` returns `triangles`. -/
def rangeCheckingOpenCV (triangles : List (Vec6 Int)) : OpenCV Int Rect where
  Subdiv2D := fun rect => .ok rect
  insert := fun rect pt => if rect.contains pt then .ok rect else .error ⟨-211⟩
  getTriangleList := fun _ => .ok triangles
  cvRound := fun v => v

/-- A `NUMBER` of the grammar: the digits before the point and, when there is a
point, the digits after it. -/
structure Number where
  intDigits : List Char
  fracDigits : Option (List Char)
deriving DecidableEq, Repr

/-- The characters of a `NUMBER`. -/
def Number.text (n : Number) : List Char :=
  match n.fracDigits with
  | none => n.intDigits
  | some f => n.intDigits ++ '.' :: f

/-- A `NUMBER` is well formed when both digit runs are non-empty runs of decimal
digits and its integer part fits in a 32-bit `int`. -/
def Number.wellFormed (n : Number) : Bool :=
  !n.intDigits.isEmpty && n.intDigits.all isdigit &&
    (match n.fracDigits with
     | none => true
     | some f => !f.isEmpty && f.all isdigit) &&
    decide ((digitsValue n.intDigits 0 : Int) ≤ INT_MAX)

/-- The integer part of a `NUMBER`: the value of the digits before the point. -/
def Number.trunc (n : Number) : Int := (digitsValue n.intDigits 0 : Nat)

/-- A `pair` of the grammar. -/
structure CoordPair where
  x : Number
  y : Number
deriving DecidableEq, Repr

/-- The characters of a `pair`: `x`, one space, `y`. -/
def CoordPair.text (p : CoordPair) : List Char := p.x.text ++ ' ' :: p.y.text

/-- Both numbers of the pair are well formed. -/
def CoordPair.wellFormed (p : CoordPair) : Bool := p.x.wellFormed && p.y.wellFormed

/-- The point a pair stands for: both coordinates truncated. -/
def CoordPair.point (p : CoordPair) : Point := ⟨p.x.trunc, p.y.trunc⟩

/-- The characters of a `pointlist`: the pairs joined by single commas. -/
def pointlistText : List CoordPair → List Char
  | [] => []
  | [p] => p.text
  | p :: q :: ps => p.text ++ ',' :: pointlistText (q :: ps)

/-! ## What the specification asks of the drawing and of `main` -/

/-- The three edges of a triangle, in the order they are drawn. -/
def triangleEdges (pt1 pt2 pt3 : Point) : List DrawCall :=
  [DrawCall.line pt1 pt2 line_color 2 4, DrawCall.line pt2 pt3 line_color 2 4,
   DrawCall.line pt3 pt1 line_color 2 4]

/-- A point lies in the image: `0 ≤ x < width` and `0 ≤ y < height`. -/
def inBounds (width height : Int) (p : Point) : Prop :=
  0 ≤ p.x ∧ p.x < width ∧ 0 ≤ p.y ∧ p.y < height

instance (width height : Int) (p : Point) : Decidable (inBounds width height p) := by
  unfold inBounds; infer_instance

/-- The three rounded vertices of a triangle of the list. -/
def roundedVertices {F S : Type} (cv : OpenCV F S) (t : Vec6 F) : Point × Point × Point :=
  (⟨cv.cvRound t.v0, cv.cvRound t.v1⟩, ⟨cv.cvRound t.v2, cv.cvRound t.v3⟩,
   ⟨cv.cvRound t.v4, cv.cvRound t.v5⟩)

/-- All three vertices of a rounded triangle lie in the image. -/
def triangleInBounds (width height : Int) (t : Point × Point × Point) : Prop :=
  inBounds width height t.1 ∧ inBounds width height t.2.1 ∧ inBounds width height t.2.2

instance (width height : Int) (t : Point × Point × Point) :
    Decidable (triangleInBounds width height t) := by
  unfold triangleInBounds; infer_instance

/-- The edges the specification asks for: for each triangle in list order with all
three vertices in bounds, its three edges; nothing for the others. -/
def specEdges (width height : Int) : List (Point × Point × Point) → List DrawCall
  | [] => []
  | t :: rest =>
    if triangleInBounds width height t then
      triangleEdges t.1 t.2.1 t.2.2 ++ specEdges width height rest
    else specEdges width height rest

/-- Inserting the points into a subdivision, in order, up to the first throw. -/
def insertAll {F S : Type} (cv : OpenCV F S) : S → List Point → Except CvError S
  | subdiv, [] => .ok subdiv
  | subdiv, point :: rest =>
    match cv.insert subdiv point with
    | .error e => .error e
    | .ok subdiv' => insertAll cv subdiv' rest

/-- The library calls of `DrawDelaunayTriangles` alone: build the subdivision over
the rectangle, insert every point in order, read the triangle list. -/
def triangulate {F S : Type} (cv : OpenCV F S) (screen_space : Rect) (points : List Point) :
    Except CvError (List (Vec6 F)) :=
  match cv.Subdiv2D screen_space with
  | .error e => .error e
  | .ok subdiv =>
    match insertAll cv subdiv points with
    | .error e => .error e
    | .ok subdiv' => cv.getTriangleList subdiv'

/-- The number of points handed to `insert`, in order, up to and including the
first for which it throws. -/
def insertAttempts {F S : Type} (cv : OpenCV F S) : S → List Point → Nat
  | _, [] => 0
  | subdiv, point :: rest =>
    match cv.insert subdiv point with
    | .error _ => 1
    | .ok subdiv' => 1 + insertAttempts cv subdiv' rest

/-- The number of points `DrawDelaunayTriangles` hands to `insert`: none when the
constructor of the subdivision throws. -/
def insertedCount {F S : Type} (cv : OpenCV F S) (screen_space : Rect) (points : List Point) :
    Nat :=
  match cv.Subdiv2D screen_space with
  | .error _ => 0
  | .ok subdiv => insertAttempts cv subdiv points

/-- The edges drawn for the outcome of the library calls: those of the in-bounds
triangles of the list, none when a call throws. -/
def drawnEdges {F S : Type} (cv : OpenCV F S) (width height : Int) :
    Except CvError (List (Vec6 F)) → List DrawCall
  | .error _ => []
  | .ok triangles => specEdges width height (triangles.map (roundedVertices cv))

/-- The outcome of a call, without its value. -/
def outcome {E A : Type} : Except E A → Except E Unit
  | .error e => .error e
  | .ok _ => .ok ()

/-- The discs of the points, in order. -/
def pointDiscs (points : List Point) : List DrawCall :=
  points.map (fun p => DrawCall.circle p 5 dot_color (-1))

/-- A character of a numeric run: a digit or the point. -/
def isRunChar (c : Char) : Prop := isdigit c = true ∨ c = '.'

/-- The span kept by the loop: `begin ≤ end ≤ i` before the iteration at index `i`. -/
def SpanInvariant (i : Nat) (st : ScanState) : Prop :=
  st.begin_ ≤ st.end_ ∧ st.end_ ≤ i

/-- The three pairs of the coordinate string "1 1,2 2,3 1". -/
def examplePairs : List CoordPair :=
  [⟨⟨['1'], none⟩, ⟨['1'], none⟩⟩, ⟨⟨['2'], none⟩, ⟨['2'], none⟩⟩, ⟨⟨['3'], none⟩, ⟨['1'], none⟩⟩]

/-- The corners of the square of scenario A. -/
def squarePoints : List Point := [⟨0, 0⟩, ⟨10, 0⟩, ⟨10, 10⟩, ⟨0, 10⟩]

/-- The two triangles that split the square of scenario A along the diagonal from
(0, 0) to (10, 10). -/
def squareTriangles : List (Vec6 Int) := [⟨0, 0, 10, 0, 10, 10⟩, ⟨0, 0, 10, 10, 0, 10⟩]

/-- The two triangles that split the square of scenario A along the diagonal from
(10, 0) to (0, 10). -/
def squareTrianglesOther : List (Vec6 Int) := [⟨0, 0, 10, 0, 0, 10⟩, ⟨10, 0, 10, 10, 0, 10⟩]

/-! ## Library facts -/

theorem isdigit_not_isspace {c : Char} (h : isdigit c = true) : isspace c = false := by
  simp only [isdigit, isspace, Bool.and_eq_true, Bool.or_eq_false_iff, decide_eq_true_eq,
    beq_eq_false_iff_ne, Bool.and_eq_false_iff, decide_eq_false_iff_not] at *
  omega

theorem isdigit_ne_sign {c : Char} (h : isdigit c = true) : c ≠ '-' ∧ c ≠ '+' := by
  constructor <;> rintro rfl <;> revert h <;> decide

theorem spanLength_eq {b e : Nat} (hbe : b ≤ e) (he : e + 1 < SIZE_MOD) :
    spanLength b e = e - b + 1 := by
  simp only [spanLength, SIZE_MOD] at *
  omega

theorem takeWhile_all {p : Char → Bool} :
    ∀ {l : List Char}, (∀ c ∈ l, p c = true) → l.takeWhile p = l
  | [], _ => rfl
  | c :: l, h => by
    have hc : p c = true := h c (List.mem_cons_self _ _)
    have hl : ∀ d ∈ l, p d = true := fun d hd => h d (List.mem_cons_of_mem _ hd)
    simp [List.takeWhile, hc, takeWhile_all hl]

theorem takeWhile_stop {p : Char → Bool} {d : Char} (hd : p d = false) (r : List Char) :
    ∀ {l : List Char}, (∀ c ∈ l, p c = true) → (l ++ d :: r).takeWhile p = l
  | [], _ => by simp [List.takeWhile, hd]
  | c :: l, h => by
    have hc : p c = true := h c (List.mem_cons_self _ _)
    have hl : ∀ e ∈ l, p e = true := fun e he => h e (List.mem_cons_of_mem _ he)
    simp [List.takeWhile, hc, takeWhile_stop hd r hl]

/-- What `strtol` reads in a run that starts with digits. -/
theorem strtolScan_digits {ds tail : List Char} (hne : ds ≠ [])
    (hds : ∀ c ∈ ds, isdigit c = true) (htail : (ds ++ tail).takeWhile isdigit = ds) :
    strtolScan (ds ++ tail) = some ((digitsValue ds 0 : Nat) : Int) := by
  obtain ⟨c, cs, rfl⟩ := List.exists_cons_of_ne_nil hne
  have hc : isdigit c = true := hds c (List.mem_cons_self _ _)
  have hsp : isspace c = false := isdigit_not_isspace hc
  have hsg := isdigit_ne_sign hc
  have hbody : ((c :: cs) ++ tail).dropWhile isspace = (c :: cs) ++ tail := by
    simp [List.dropWhile, hsp]
  unfold strtolScan
  simp only [hbody]
  simp only [List.cons_append, hsg.1, hsg.2, if_false]
  rw [← List.cons_append, htail]
  simp

/-! ## The parser on the tokens of the grammar -/

theorem number_wellFormed_iff (n : Number) :
    n.wellFormed = true ↔
      n.intDigits ≠ [] ∧ (∀ c ∈ n.intDigits, isdigit c = true) ∧
      (∀ f, n.fracDigits = some f → f ≠ [] ∧ ∀ c ∈ f, isdigit c = true) ∧
      ((digitsValue n.intDigits 0 : Nat) : Int) ≤ INT_MAX := by
  unfold Number.wellFormed
  cases hf : n.fracDigits <;> simp [List.isEmpty_iff, and_assoc]

theorem Number.text_ne_nil {n : Number} (h : n.wellFormed = true) : n.text ≠ [] := by
  obtain ⟨hne, -, -, -⟩ := (number_wellFormed_iff n).1 h
  unfold Number.text
  cases n.fracDigits <;> simp [hne]

theorem Number.text_run {n : Number} (h : n.wellFormed = true) :
    ∀ c ∈ n.text, isRunChar c := by
  obtain ⟨-, hint, hfrac, -⟩ := (number_wellFormed_iff n).1 h
  intro c hc
  unfold Number.text at hc
  cases hf : n.fracDigits with
  | none =>
    rw [hf] at hc
    exact Or.inl (hint c hc)
  | some f =>
    rw [hf] at hc
    simp only [List.mem_append, List.mem_cons] at hc
    rcases hc with hc | rfl | hc
    · exact Or.inl (hint c hc)
    · exact Or.inr rfl
    · exact Or.inl ((hfrac f hf).2 c hc)

/-- The conversion of a well-formed `NUMBER` is its integer part. -/
theorem stoi_number {n : Number} (h : n.wellFormed = true) : stoi n.text = .ok n.trunc := by
  obtain ⟨hne, hint, -, hmax⟩ := (number_wellFormed_iff n).1 h
  have hscan : strtolScan n.text = some ((digitsValue n.intDigits 0 : Nat) : Int) := by
    unfold Number.text
    cases n.fracDigits with
    | none =>
      have := @strtolScan_digits n.intDigits [] hne hint (by simpa using takeWhile_all hint)
      simpa using this
    | some f =>
      exact strtolScan_digits hne hint (takeWhile_stop (by decide) f hint)
  have hmin : INT_MIN ≤ ((digitsValue n.intDigits 0 : Nat) : Int) := by
    have : (0 : Int) ≤ ((digitsValue n.intDigits 0 : Nat) : Int) := Int.natCast_nonneg _
    unfold INT_MIN
    omega
  simp [stoi, hscan, hmin, hmax, Number.trunc]

theorem loopBody_run (fs : List Char) (st : ScanState) (i : Nat) {c : Char} (h : isRunChar c) :
    loopBody fs st i c = .ok { st with end_ := i } := by
  unfold loopBody
  rcases h with h | rfl
  · simp [h]
  · simp

/-- Scanning a non-empty numeric run only moves `end`, to the last index of the run. -/
theorem scanFrom_run (fs rest : List Char) :
    ∀ (cs : List Char) (c : Char) (i : Nat) (st : ScanState),
      (∀ d ∈ c :: cs, isRunChar d) →
      scanFrom fs (c :: cs ++ rest) i st =
        scanFrom fs rest (i + cs.length + 1) { st with end_ := i + cs.length }
  | [], c, i, st, h => by
    simp [scanFrom, loopBody_run fs st i (h c (List.mem_cons_self _ _))]
  | d :: ds, c, i, st, h => by
    have hc : isRunChar c := h c (List.mem_cons_self _ _)
    have hrest : ∀ e ∈ d :: ds, isRunChar e := fun e he => h e (List.mem_cons_of_mem _ he)
    have ih := scanFrom_run fs rest ds d (i + 1) { st with end_ := i } hrest
    simp only [List.cons_append, scanFrom, loopBody_run fs st i hc] at ih ⊢
    rw [ih]
    simp only [List.length_cons]
    have e1 : i + 1 + ds.length + 1 = i + (ds.length + 1) + 1 := by omega
    have e2 : i + 1 + ds.length = i + (ds.length + 1) := by omega
    rw [e1, e2]

theorem substr_run (pre run rest : List Char) :
    substr (pre ++ run ++ rest) pre.length run.length = .ok run := by
  unfold substr
  have : ¬ pre.length > (pre ++ run ++ rest).length := by simp
  simp [this, List.append_assoc]

/-- The run handed to `stoi` at the delimiter that follows a well-formed `NUMBER`
is the text of that number. -/
theorem substr_at_delimiter {n : Number} (h : n.wellFormed = true) (pre : List Char) (d : Char)
    (rest : List Char) (hsize : (pre ++ n.text ++ d :: rest).length < SIZE_MOD) :
    substr (pre ++ n.text ++ d :: rest) pre.length
      (spanLength pre.length (pre.length + (n.text.length - 1))) = .ok n.text := by
  have hpos : 0 < n.text.length := List.length_pos.2 (Number.text_ne_nil h)
  have hlen : (pre ++ n.text ++ d :: rest).length =
      pre.length + n.text.length + (rest.length + 1) := by simp; omega
  rw [spanLength_eq (by omega) (by omega)]
  have : pre.length + (n.text.length - 1) - pre.length + 1 = n.text.length := by omega
  rw [this]
  exact substr_run pre n.text (d :: rest)

/-- Scanning a well-formed `NUMBER` and the space after it stores its integer part
in `x` and restarts the span after the space. -/
theorem scanFrom_number_space {n : Number} (h : n.wellFormed = true) (fs pre rest : List Char)
    (hfs : fs = pre ++ n.text ++ ' ' :: rest) (hsize : fs.length < SIZE_MOD) (st : ScanState)
    (hb : st.begin_ = pre.length) :
    scanFrom fs (n.text ++ ' ' :: rest) pre.length st =
      scanFrom fs rest (pre.length + n.text.length + 1)
        { st with x := n.trunc, begin_ := pre.length + n.text.length + 1,
                  end_ := pre.length + n.text.length + 1 } := by
  subst hfs
  have hpos : 0 < n.text.length := List.length_pos.2 (Number.text_ne_nil h)
  have hsub := substr_at_delimiter h pre ' ' rest hsize
  obtain ⟨c, cs, hcs⟩ := List.exists_cons_of_ne_nil (Number.text_ne_nil h)
  have hrun : ∀ e ∈ c :: cs, isRunChar e := by
    rw [← hcs]; exact Number.text_run h
  have hscan := scanFrom_run (pre ++ n.text ++ ' ' :: rest) (' ' :: rest) cs c pre.length st hrun
  rw [← hcs] at hscan
  have hl : cs.length = n.text.length - 1 := by rw [hcs]; simp
  rw [hscan, hl]
  have e1 : pre.length + (n.text.length - 1) + 1 = pre.length + n.text.length := by omega
  have hd : isdigit ' ' = false := by decide
  simp only [scanFrom, loopBody, hb, hsub, stoi_number h, e1]
  simp [hd]

/-- Scanning a well-formed `NUMBER` and the comma after it pushes the point made of
`x` and its integer part, and restarts the span after the comma. -/
theorem scanFrom_number_comma {n : Number} (h : n.wellFormed = true) (fs pre rest : List Char)
    (hfs : fs = pre ++ n.text ++ ',' :: rest) (hsize : fs.length < SIZE_MOD) (st : ScanState)
    (hb : st.begin_ = pre.length) :
    scanFrom fs (n.text ++ ',' :: rest) pre.length st =
      scanFrom fs rest (pre.length + n.text.length + 1)
        { st with facial_points := st.facial_points ++ [⟨st.x, n.trunc⟩],
                  begin_ := pre.length + n.text.length + 1,
                  end_ := pre.length + n.text.length + 1 } := by
  subst hfs
  have hpos : 0 < n.text.length := List.length_pos.2 (Number.text_ne_nil h)
  have hsub := substr_at_delimiter h pre ',' rest hsize
  obtain ⟨c, cs, hcs⟩ := List.exists_cons_of_ne_nil (Number.text_ne_nil h)
  have hrun : ∀ e ∈ c :: cs, isRunChar e := by
    rw [← hcs]; exact Number.text_run h
  have hscan := scanFrom_run (pre ++ n.text ++ ',' :: rest) (',' :: rest) cs c pre.length st hrun
  rw [← hcs] at hscan
  have hl : cs.length = n.text.length - 1 := by rw [hcs]; simp
  rw [hscan, hl]
  have e1 : pre.length + (n.text.length - 1) + 1 = pre.length + n.text.length := by omega
  have hd : isdigit ',' = false := by decide
  simp only [scanFrom, loopBody, hb, hsub, stoi_number h, e1]
  simp [hd]

theorem pair_wellFormed_iff (p : CoordPair) :
    p.wellFormed = true ↔ p.x.wellFormed = true ∧ p.y.wellFormed = true := by
  simp [CoordPair.wellFormed]

/-- Scanning a well-formed pair and the comma after it emits the point of the pair. -/
theorem scanFrom_pair_comma {p : CoordPair} (h : p.wellFormed = true) (fs pre rest : List Char)
    (hfs : fs = pre ++ p.text ++ ',' :: rest) (hsize : fs.length < SIZE_MOD) (st : ScanState)
    (hb : st.begin_ = pre.length) :
    scanFrom fs (p.text ++ ',' :: rest) pre.length st =
      scanFrom fs rest (pre.length + p.text.length + 1)
        { x := p.x.trunc, facial_points := st.facial_points ++ [p.point],
          begin_ := pre.length + p.text.length + 1,
          end_ := pre.length + p.text.length + 1 } := by
  obtain ⟨hx, hy⟩ := (pair_wellFormed_iff p).1 h
  have hfs1 : fs = pre ++ p.x.text ++ ' ' :: (p.y.text ++ ',' :: rest) := by
    rw [hfs]; simp [CoordPair.text]
  have hfs2 : fs = (pre ++ p.x.text ++ [' ']) ++ p.y.text ++ ',' :: rest := by
    rw [hfs]; simp [CoordPair.text]
  have hlen : (pre ++ p.x.text ++ [' ']).length = pre.length + p.x.text.length + 1 := by
    simp; omega
  have h1 := scanFrom_number_space hx fs pre (p.y.text ++ ',' :: rest) hfs1 hsize st hb
  have h2 := scanFrom_number_comma hy fs (pre ++ p.x.text ++ [' ']) rest hfs2 hsize
    { st with x := p.x.trunc, begin_ := pre.length + p.x.text.length + 1,
              end_ := pre.length + p.x.text.length + 1 } (by rw [hlen])
  rw [hlen] at h2
  have htext : p.text ++ ',' :: rest = p.x.text ++ ' ' :: (p.y.text ++ ',' :: rest) := by
    simp [CoordPair.text]
  have hl : p.text.length = p.x.text.length + 1 + p.y.text.length := by
    simp [CoordPair.text]; omega
  rw [htext, h1, h2, hl]
  simp only [CoordPair.point]
  have e : pre.length + p.x.text.length + 1 + p.y.text.length + 1 =
      pre.length + (p.x.text.length + 1 + p.y.text.length) + 1 := by omega
  rw [e]

/-- Scanning a well-formed pair that ends the string emits nothing. -/
theorem scanFrom_pair_end {p : CoordPair} (h : p.wellFormed = true) (fs pre : List Char)
    (hfs : fs = pre ++ p.text) (hsize : fs.length < SIZE_MOD) (st : ScanState)
    (hb : st.begin_ = pre.length) :
    ∃ st', scanFrom fs p.text pre.length st = .ok st' ∧
      st'.facial_points = st.facial_points := by
  obtain ⟨hx, hy⟩ := (pair_wellFormed_iff p).1 h
  have hfs1 : fs = pre ++ p.x.text ++ ' ' :: p.y.text := by
    rw [hfs]; simp [CoordPair.text]
  have h1 := scanFrom_number_space hx fs pre p.y.text hfs1 hsize st hb
  obtain ⟨c, cs, hcs⟩ := List.exists_cons_of_ne_nil (Number.text_ne_nil hy)
  have hrun : ∀ e ∈ c :: cs, isRunChar e := by
    rw [← hcs]; exact Number.text_run hy
  have h2 := scanFrom_run fs [] cs c (pre.length + p.x.text.length + 1)
    { st with x := p.x.trunc, begin_ := pre.length + p.x.text.length + 1,
              end_ := pre.length + p.x.text.length + 1 } hrun
  simp only [List.append_nil] at h2
  rw [← hcs] at h2
  refine ⟨{ st with x := p.x.trunc, begin_ := pre.length + p.x.text.length + 1,
                    end_ := pre.length + p.x.text.length + 1 + cs.length }, ?_, rfl⟩
  show scanFrom fs (p.x.text ++ ' ' :: p.y.text) pre.length st = _
  rw [h1, h2]
  rfl

/-- The scan of a well-formed coordinate string: it ends without failure, having
emitted the points of all pairs but the last, in order. -/
theorem scanFrom_pointlist :
    ∀ (ps : List CoordPair), (∀ p ∈ ps, p.wellFormed = true) →
      ∀ (fs pre : List Char), fs = pre ++ pointlistText ps → fs.length < SIZE_MOD →
      ∀ (st : ScanState), st.begin_ = pre.length →
      ∃ st', scanFrom fs (pointlistText ps) pre.length st = .ok st' ∧
        st'.facial_points = st.facial_points ++ ps.dropLast.map CoordPair.point
  | [], _, fs, pre, _, _, st, _ => ⟨st, by simp [pointlistText, scanFrom], by simp⟩
  | [p], hwf, fs, pre, hfs, hsize, st, hb => by
    obtain ⟨st', h1, h2⟩ := scanFrom_pair_end (hwf p (List.mem_cons_self _ _)) fs pre
      (by simpa [pointlistText] using hfs) hsize st hb
    exact ⟨st', by simpa [pointlistText] using h1, by simp [h2]⟩
  | p :: q :: ps, hwf, fs, pre, hfs, hsize, st, hb => by
    have hp := hwf p (List.mem_cons_self _ _)
    have hrest : ∀ r ∈ q :: ps, r.wellFormed = true :=
      fun r hr => hwf r (List.mem_cons_of_mem _ hr)
    have hfs1 : fs = pre ++ p.text ++ ',' :: pointlistText (q :: ps) := by
      rw [hfs]; simp [pointlistText]
    have hfs2 : fs = (pre ++ p.text ++ [',']) ++ pointlistText (q :: ps) := by
      rw [hfs]; simp [pointlistText]
    have hlen : (pre ++ p.text ++ [',']).length = pre.length + p.text.length + 1 := by
      simp; omega
    have h1 := scanFrom_pair_comma hp fs pre (pointlistText (q :: ps)) hfs1 hsize st hb
    obtain ⟨st', h2, h3⟩ := scanFrom_pointlist (q :: ps) hrest fs (pre ++ p.text ++ [','])
      hfs2 hsize
      { x := p.x.trunc, facial_points := st.facial_points ++ [p.point],
        begin_ := pre.length + p.text.length + 1,
        end_ := pre.length + p.text.length + 1 } (by rw [hlen])
    rw [hlen] at h2
    refine ⟨st', ?_, ?_⟩
    · show scanFrom fs (p.text ++ ',' :: pointlistText (q :: ps)) pre.length st = _
      rw [h1, h2]
    · rw [h3]; simp [List.dropLast]

/-- The parser on a well-formed coordinate string: all pairs but the last. -/
theorem ParseFacialPoints_pointlist (x0 : Int) (ps : List CoordPair)
    (hwf : ∀ p ∈ ps, p.wellFormed = true) (hsize : (pointlistText ps).length < SIZE_MOD) :
    ParseFacialPoints x0 (String.mk (pointlistText ps)) =
      .ok (ps.dropLast.map CoordPair.point) := by
  obtain ⟨st', h1, h2⟩ := scanFrom_pointlist ps hwf (pointlistText ps) [] (by simp) hsize
    (initialState x0) rfl
  simp only [List.length_nil] at h1
  simp only [ParseFacialPoints, h1, h2]
  simp [initialState]

theorem number_count_comma {n : Number} (h : n.wellFormed = true) : n.text.count ',' = 0 := by
  rw [List.count_eq_zero]
  intro hmem
  rcases Number.text_run h _ hmem with hd | hp
  · revert hd; decide
  · revert hp; decide

theorem pair_count_comma {p : CoordPair} (h : p.wellFormed = true) :
    p.text.count ',' = 0 := by
  obtain ⟨hx, hy⟩ := (pair_wellFormed_iff p).1 h
  have hs : (' ' == ',') = false := by decide
  simp [CoordPair.text, List.count_append, List.count_cons, number_count_comma hx,
    number_count_comma hy, hs]

/-- A well-formed coordinate string of `n ≥ 1` pairs holds `n - 1` commas. -/
theorem pointlistText_count_comma :
    ∀ (ps : List CoordPair), (∀ p ∈ ps, p.wellFormed = true) →
      (pointlistText ps).count ',' = ps.length - 1
  | [], _ => by simp [pointlistText]
  | [p], hwf => by
    simp [pointlistText, pair_count_comma (hwf p (List.mem_cons_self _ _))]
  | p :: q :: ps, hwf => by
    have hp := hwf p (List.mem_cons_self _ _)
    have hrest : ∀ r ∈ q :: ps, r.wellFormed = true :=
      fun r hr => hwf r (List.mem_cons_of_mem _ hr)
    have ih := pointlistText_count_comma (q :: ps) hrest
    simp only [pointlistText, List.count_append, List.count_cons_self, pair_count_comma hp,
      ih, List.length_cons]
    omega

/-! ## The parser: the claims -/

/-- C1 (the code departs from it).  The string "1 1,2 2,3 1" is the text of three
well-formed pairs, and `ParseFacialPoints` returns two points for it: the last
pair, which no comma follows, is not emitted. -/
theorem C1_three_pairs_two_points :
    "1 1,2 2,3 1" = String.mk (pointlistText examplePairs) ∧
    examplePairs.length = 3 ∧ (∀ p ∈ examplePairs, p.wellFormed = true) ∧
    ParseFacialPoints 0 "1 1,2 2,3 1" = .ok [⟨1, 1⟩, ⟨2, 2⟩] := by
  decide

/-- C8.  For every well-formed coordinate string of `n ≥ 1` pairs with no comma
after the last pair, `ParseFacialPoints` never emits the last pair: it returns
exactly the points of the first `n - 1` pairs, as many points as the string has
commas; a string that holds a single pair yields the empty sequence. -/
theorem C8_trailing_pair_never_emitted (x0 : Int) (ps : List CoordPair) (hne : ps ≠ [])
    (hwf : ∀ p ∈ ps, p.wellFormed = true) (hsize : (pointlistText ps).length < SIZE_MOD) :
    ∃ (firsts : List CoordPair) (last : CoordPair), ps = firsts ++ [last] ∧
      ParseFacialPoints x0 (String.mk (pointlistText ps)) = .ok (firsts.map CoordPair.point) ∧
      (firsts.map CoordPair.point).length = ps.length - 1 ∧
      (firsts.map CoordPair.point).length = (pointlistText ps).count ',' ∧
      (ps.length = 1 → ParseFacialPoints x0 (String.mk (pointlistText ps)) = .ok []) := by
  have hparse := ParseFacialPoints_pointlist x0 ps hwf hsize
  have hlen : (ps.dropLast.map CoordPair.point).length = ps.length - 1 := by simp
  refine ⟨ps.dropLast, ps.getLast hne, (List.dropLast_append_getLast hne).symm, hparse, hlen,
    ?_, ?_⟩
  · rw [hlen, pointlistText_count_comma ps hwf]
  · intro h1
    rw [hparse]
    have h0 : ps.dropLast.length = 0 := by simp [h1]
    rw [List.length_eq_zero.1 h0]
    rfl

/-- C8 at the three pairs of "1 1,2 2,3 1". -/
theorem C8_trailing_pair_never_emitted_witness :
    (examplePairs ≠ [] ∧ (∀ p ∈ examplePairs, p.wellFormed = true) ∧
      (pointlistText examplePairs).length < SIZE_MOD) ∧
    ∃ (firsts : List CoordPair) (last : CoordPair), examplePairs = firsts ++ [last] ∧
      ParseFacialPoints 0 (String.mk (pointlistText examplePairs)) =
        .ok (firsts.map CoordPair.point) ∧
      (firsts.map CoordPair.point).length = examplePairs.length - 1 ∧
      (firsts.map CoordPair.point).length = (pointlistText examplePairs).count ',' ∧
      (examplePairs.length = 1 →
        ParseFacialPoints 0 (String.mk (pointlistText examplePairs)) = .ok []) :=
  ⟨by decide, C8_trailing_pair_never_emitted 0 examplePairs (by decide) (by decide) (by decide)⟩

/-! ## The parser on arbitrary strings -/

theorem loopBody_skip (fs : List Char) (st : ScanState) (i : Nat) {c : Char}
    (hd : isdigit c = false) (hp : c ≠ '.') (hs : c ≠ ' ') (hc : c ≠ ',') :
    loopBody fs st i c = .ok st := by
  simp [loopBody, hd, hp, hs, hc]

theorem loopBody_no_delimiter (fs : List Char) (st : ScanState) (i : Nat) {c : Char}
    (hs : c ≠ ' ') (hc : c ≠ ',') :
    ∃ st', loopBody fs st i c = .ok st' ∧ st'.facial_points = st.facial_points := by
  unfold loopBody
  split
  · exact ⟨st, by simp [hs, hc], rfl⟩
  · exact ⟨_, rfl, rfl⟩

theorem scanFrom_no_delimiter (fs : List Char) :
    ∀ (rest : List Char) (i : Nat) (st : ScanState), (∀ c ∈ rest, c ≠ ' ' ∧ c ≠ ',') →
      ∃ st', scanFrom fs rest i st = .ok st' ∧ st'.facial_points = st.facial_points
  | [], _, st, _ => ⟨st, rfl, rfl⟩
  | c :: rest, i, st, h => by
    obtain ⟨hs, hc⟩ := h c (List.mem_cons_self _ _)
    obtain ⟨st1, h1, hp1⟩ := loopBody_no_delimiter fs st i hs hc
    obtain ⟨st2, h2, hp2⟩ := scanFrom_no_delimiter fs rest (i + 1) st1
      (fun d hd => h d (List.mem_cons_of_mem _ hd))
    exact ⟨st2, by simp [scanFrom, h1, h2], hp2.trans hp1⟩

/-- With the span invariant, at an index inside the string, the extraction
`substr (begin, end - begin + 1)` has a length of at least one, does not wrap,
and returns a non-empty run. -/
theorem substr_in_range {fs : List Char} {i : Nat} {st : ScanState} (hinv : SpanInvariant i st)
    (hi : i < fs.length) (hsize : fs.length < SIZE_MOD) :
    spanLength st.begin_ st.end_ = st.end_ - st.begin_ + 1 ∧
      ∃ value, substr fs st.begin_ (spanLength st.begin_ st.end_) = .ok value ∧ value ≠ [] := by
  obtain ⟨h1, h2⟩ := hinv
  have hsp : spanLength st.begin_ st.end_ = st.end_ - st.begin_ + 1 :=
    spanLength_eq h1 (by omega)
  refine ⟨hsp, (fs.drop st.begin_).take (st.end_ - st.begin_ + 1), ?_, ?_⟩
  · have : ¬ st.begin_ > fs.length := by omega
    simp [substr, hsp, this]
  · intro h
    have hl := congrArg List.length h
    simp only [List.length_take, List.length_drop, List.length_nil] at hl
    omega

theorem loopBody_invariant {fs : List Char} {i : Nat} {st st' : ScanState} {c : Char}
    (hinv : SpanInvariant i st) (h : loopBody fs st i c = .ok st') : SpanInvariant (i + 1) st' := by
  obtain ⟨h1, h2⟩ := hinv
  unfold loopBody at h
  split at h
  · split at h
    · split at h
      · cases h
      · split at h
        · cases h
        · cases h; exact ⟨le_refl _, le_refl _⟩
    · split at h
      · split at h
        · cases h
        · split at h
          · cases h
          · cases h; exact ⟨le_refl _, le_refl _⟩
      · cases h; exact ⟨h1, by omega⟩
  · cases h; exact ⟨by show st.begin_ ≤ i; omega, by show i ≤ i + 1; omega⟩

theorem stoi_error {value : List Char} {e : ParseError} (h : stoi value = .error e) :
    e = .stoi_invalid_argument ∨ e = .stoi_out_of_range := by
  unfold stoi at h
  split at h
  · injection h with h; exact Or.inl h.symm
  · split at h
    · cases h
    · injection h with h; exact Or.inr h.symm

theorem loopBody_error {fs : List Char} {i : Nat} {st : ScanState} {c : Char} {e : ParseError}
    (hinv : SpanInvariant i st) (hi : i < fs.length) (hsize : fs.length < SIZE_MOD)
    (h : loopBody fs st i c = .error e) :
    e = .stoi_invalid_argument ∨ e = .stoi_out_of_range := by
  obtain ⟨-, value, hsub, -⟩ := substr_in_range hinv hi hsize
  unfold loopBody at h
  by_cases h1 : (!isdigit c && c != '.') = true
  · by_cases h2 : (c == ' ') = true
    · simp only [h1, h2, ↓reduceIte, hsub] at h
      cases hst : stoi value with
      | error e' => rw [hst] at h; cases h; exact stoi_error hst
      | ok r => rw [hst] at h; cases h
    · by_cases h3 : (c == ',') = true
      · simp only [h1, h2, h3, ↓reduceIte, hsub] at h
        cases hst : stoi value with
        | error e' => rw [hst] at h; cases h; exact stoi_error hst
        | ok r => rw [hst] at h; cases h
      · simp only [h1, h2, h3, ↓reduceIte] at h
        cases h
  · simp only [h1, ↓reduceIte] at h
    cases h

/-- The span invariant holds along the whole scan, and the scan fails only in `stoi`. -/
theorem scanFrom_invariant (fs : List Char) (hsize : fs.length < SIZE_MOD) :
    ∀ (rest : List Char) (i : Nat) (st : ScanState), SpanInvariant i st →
      i + rest.length ≤ fs.length →
      (∀ st', scanFrom fs rest i st = .ok st' → SpanInvariant (i + rest.length) st') ∧
      (∀ e, scanFrom fs rest i st = .error e →
        e = .stoi_invalid_argument ∨ e = .stoi_out_of_range)
  | [], i, st, hinv, _ => by
    constructor
    · intro st' h
      simp only [scanFrom, Except.ok.injEq] at h
      subst h
      simpa using hinv
    · intro e h
      simp [scanFrom] at h
  | c :: rest, i, st, hinv, hlen => by
    have hi : i < fs.length := by simp only [List.length_cons] at hlen; omega
    have hlen' : i + 1 + rest.length ≤ fs.length := by
      simp only [List.length_cons] at hlen; omega
    cases hb : loopBody fs st i c with
    | error e1 =>
      constructor
      · intro st' h
        simp [scanFrom, hb] at h
      · intro e h
        simp only [scanFrom, hb, Except.error.injEq] at h
        subst h
        exact loopBody_error hinv hi hsize hb
    | ok st1 =>
      have ih := scanFrom_invariant fs hsize rest (i + 1) st1 (loopBody_invariant hinv hb) hlen'
      constructor
      · intro st' h
        simp only [scanFrom, hb] at h
        have := ih.1 st' h
        simp only [List.length_cons]
        have e : i + (rest.length + 1) = i + 1 + rest.length := by omega
        rw [e]
        exact this
      · intro e h
        simp only [scanFrom, hb] at h
        exact ih.2 e h

/-- `ParseFacialPoints` fails only with one of the two errors of `stoi`. -/
theorem ParseFacialPoints_error (x0 : Int) (s : String) (hsize : s.data.length < SIZE_MOD)
    (e : ParseError) (he : ParseFacialPoints x0 s = .error e) :
    e = .stoi_invalid_argument ∨ e = .stoi_out_of_range := by
  have hinit : SpanInvariant 0 (initialState x0) := ⟨le_refl _, le_refl _⟩
  have herr := (scanFrom_invariant s.data hsize s.data 0 (initialState x0) hinit
    (by omega)).2
  unfold ParseFacialPoints at he
  cases hscan : scanFrom s.data s.data 0 (initialState x0) with
  | error e1 =>
    rw [hscan] at he
    injection he with he
    subst he
    exact herr _ hscan
  | ok st =>
    rw [hscan] at he
    cases he

/-- C3 (as amended).  `ParseFacialPoints` has no malformed-input check.  At a
character other than a digit, '.', ' ' or ',' the loop body changes nothing and
raises nothing; a string without ' ' and ',' returns the empty sequence whatever
else it holds.  An input is rejected only when `stoi` fails on the run extracted at
a ' ' or ',': the string "1 1,abc 2" is rejected in that way, by the conversion of
the run "a" extracted at the space after "abc". -/
theorem C3_unexpected_character_is_skipped (x0 : Int) :
    (∀ (fs : List Char) (st : ScanState) (i : Nat) (c : Char),
        isdigit c = false → c ≠ '.' → c ≠ ' ' → c ≠ ',' → loopBody fs st i c = .ok st) ∧
    (∀ (s : String), (∀ c ∈ s.data, c ≠ ' ' ∧ c ≠ ',') → ParseFacialPoints x0 s = .ok []) ∧
    substr "1 1,abc 2".data 4 (spanLength 4 4) = .ok ['a'] ∧
    ParseFacialPoints x0 "1 1,abc 2" = .error .stoi_invalid_argument ∧
    (∀ (s : String), s.data.length < SIZE_MOD → ∀ e, ParseFacialPoints x0 s = .error e →
      e = .stoi_invalid_argument ∨ e = .stoi_out_of_range) := by
  refine ⟨fun fs st i c hd hp hs hc => loopBody_skip fs st i hd hp hs hc, ?_, by decide, ?_,
    fun s hs e he => ParseFacialPoints_error x0 s hs e he⟩
  · intro s hs
    obtain ⟨st', h1, h2⟩ := scanFrom_no_delimiter s.data s.data 0 (initialState x0) hs
    simp only [ParseFacialPoints, h1, h2]
    rfl
  · have h1 := @scanFrom_number_space ⟨['1'], none⟩ (by decide)
      ['1', ' ', '1', ',', 'a', 'b', 'c', ' ', '2'] [] ['1', ',', 'a', 'b', 'c', ' ', '2']
      (by decide) (by decide) (initialState x0) rfl
    have h2 : scanFrom ['1', ' ', '1', ',', 'a', 'b', 'c', ' ', '2']
        ['1', ',', 'a', 'b', 'c', ' ', '2'] 2 ⟨2, 2, 1, []⟩ =
        .error .stoi_invalid_argument := by decide
    have h3 := h1.trans h2
    have ht : Number.text ⟨['1'], none⟩ ++ ' ' :: ['1', ',', 'a', 'b', 'c', ' ', '2'] =
        ['1', ' ', '1', ',', 'a', 'b', 'c', ' ', '2'] := by decide
    rw [ht] at h3
    simp only [List.length_nil] at h3
    have key : ∀ s : String, s.data = ['1', ' ', '1', ',', 'a', 'b', 'c', ' ', '2'] →
        ParseFacialPoints x0 s = .error .stoi_invalid_argument := by
      intro s hs
      unfold ParseFacialPoints
      rw [hs, h3]
    exact key _ rfl

/-- C3 (as stated, refuted).  The string "1a 2," holds the letter 'a', and
`ParseFacialPoints` returns the point (1, 2) for it. -/
theorem C3_counterexample :
    'a' ∈ "1a 2,".data ∧ isdigit 'a' = false ∧
      ParseFacialPoints 0 "1a 2," = .ok [⟨1, 2⟩] := by
  decide

/-- C10.  For every input string, before the iteration at any index `k` of the
string the scan has `begin ≤ end` and `begin ≤ k ≤ size`, the length
`end - begin + 1` is at least one, and `substr (begin, end - begin + 1)` returns a
non-empty run instead of raising an out-of-range error; `ParseFacialPoints` fails
only with one of the two errors of the integer conversion. -/
theorem C10_substr_never_out_of_range (x0 : Int) (s : String)
    (hsize : s.data.length < SIZE_MOD) :
    (∀ (k : Nat) (st : ScanState), k < s.data.length →
      scanFrom s.data (s.data.take k) 0 (initialState x0) = .ok st →
        st.begin_ ≤ st.end_ ∧ st.begin_ ≤ k ∧ k ≤ s.data.length ∧
        1 ≤ spanLength st.begin_ st.end_ ∧
        ∃ value, substr s.data st.begin_ (spanLength st.begin_ st.end_) = .ok value ∧
          value ≠ []) ∧
    (∀ e, ParseFacialPoints x0 s = .error e →
      e = .stoi_invalid_argument ∨ e = .stoi_out_of_range) := by
  have hinit : SpanInvariant 0 (initialState x0) := ⟨le_refl _, le_refl _⟩
  constructor
  · intro k st hk hscan
    have hlen : (s.data.take k).length = k := by
      rw [List.length_take]; omega
    have hinv := (scanFrom_invariant s.data hsize (s.data.take k) 0 (initialState x0) hinit
      (by rw [hlen]; omega)).1 st hscan
    rw [hlen, Nat.zero_add] at hinv
    obtain ⟨hsp, value, hsub, hval⟩ := substr_in_range hinv hk hsize
    exact ⟨hinv.1, le_trans hinv.1 hinv.2, le_of_lt hk, by rw [hsp]; omega, value, hsub, hval⟩
  · exact fun e he => ParseFacialPoints_error x0 s hsize e he

/-- C10 at the string "1 1,abc 2". -/
theorem C10_substr_never_out_of_range_witness :
    "1 1,abc 2".data.length < SIZE_MOD ∧
    ((∀ (k : Nat) (st : ScanState), k < "1 1,abc 2".data.length →
      scanFrom "1 1,abc 2".data ("1 1,abc 2".data.take k) 0 (initialState 0) = .ok st →
        st.begin_ ≤ st.end_ ∧ st.begin_ ≤ k ∧ k ≤ "1 1,abc 2".data.length ∧
        1 ≤ spanLength st.begin_ st.end_ ∧
        ∃ value, substr "1 1,abc 2".data st.begin_ (spanLength st.begin_ st.end_) = .ok value ∧
          value ≠ []) ∧
    (∀ e, ParseFacialPoints 0 "1 1,abc 2" = .error e →
      e = .stoi_invalid_argument ∨ e = .stoi_out_of_range)) :=
  ⟨by decide, C10_substr_never_out_of_range 0 "1 1,abc 2" (by decide)⟩

/-! ## Drawing: what the two loops compute -/

theorem DrawPoints_eq : ∀ (points : List Point) (image : Image),
    DrawPoints image points = image ++ pointDiscs points
  | [], image => by simp [DrawPoints, pointDiscs]
  | p :: rest, image => by
    simp [DrawPoints, DrawPoint, pointDiscs, DrawPoints_eq rest]

theorem insertLoop_eq {F S : Type} (cv : OpenCV F S) (drawPoints : Bool) :
    ∀ (points : List Point) (image : Image) (subdiv : S),
      insertLoop cv drawPoints points image subdiv =
        (image ++ (if drawPoints then pointDiscs (points.take (insertAttempts cv subdiv points))
            else []),
          insertAll cv subdiv points)
  | [], image, subdiv => by
    cases drawPoints <;> simp [insertLoop, insertAll, insertAttempts, pointDiscs]
  | p :: rest, image, subdiv => by
    simp only [insertLoop, insertAll, insertAttempts]
    cases h : cv.insert subdiv p with
    | error e => cases drawPoints <;> simp [DrawPoint, pointDiscs]
    | ok subdiv' =>
      simp only [insertLoop_eq cv drawPoints rest]
      have e : 1 + insertAttempts cv subdiv' rest = insertAttempts cv subdiv' rest + 1 := by omega
      cases drawPoints <;> simp [DrawPoint, pointDiscs, e]

theorem insertAttempts_le {F S : Type} (cv : OpenCV F S) :
    ∀ (points : List Point) (subdiv : S), insertAttempts cv subdiv points ≤ points.length
  | [], _ => by simp [insertAttempts]
  | p :: rest, subdiv => by
    simp only [insertAttempts, List.length_cons]
    cases cv.insert subdiv p with
    | error e => simp
    | ok subdiv' =>
      have := insertAttempts_le cv rest subdiv'
      simp only
      omega

theorem insertAttempts_of_ok {F S : Type} (cv : OpenCV F S) :
    ∀ (points : List Point) (subdiv subdiv' : S), insertAll cv subdiv points = .ok subdiv' →
      insertAttempts cv subdiv points = points.length
  | [], _, _, _ => by simp [insertAttempts]
  | p :: rest, subdiv, subdiv', h => by
    simp only [insertAll, insertAttempts, List.length_cons] at h ⊢
    cases h1 : cv.insert subdiv p with
    | error e => rw [h1] at h; cases h
    | ok s1 =>
      rw [h1] at h
      have := insertAttempts_of_ok cv rest s1 subdiv' h
      simp only
      omega

theorem insertedCount_le {F S : Type} (cv : OpenCV F S) (screen_space : Rect)
    (points : List Point) : insertedCount cv screen_space points ≤ points.length := by
  unfold insertedCount
  cases cv.Subdiv2D screen_space with
  | error e => simp
  | ok subdiv => exact insertAttempts_le cv points subdiv

theorem insertedCount_of_ok {F S : Type} (cv : OpenCV F S) (screen_space : Rect)
    (points : List Point) (triangles : List (Vec6 F))
    (h : triangulate cv screen_space points = .ok triangles) :
    insertedCount cv screen_space points = points.length := by
  unfold triangulate at h
  unfold insertedCount
  cases h1 : cv.Subdiv2D screen_space with
  | error e => rw [h1] at h; cases h
  | ok subdiv =>
    rw [h1] at h
    simp only at h ⊢
    cases h2 : insertAll cv subdiv points with
    | error e => rw [h2] at h; cases h
    | ok subdiv' => exact insertAttempts_of_ok cv points subdiv subdiv' h2

theorem contains_iff_inBounds (width height : Int) (p : Point) :
    Rect.contains ⟨0, 0, width, height⟩ p = true ↔ inBounds width height p := by
  simp [Rect.contains, inBounds, and_assoc]

theorem triangleLoop_eq {F S : Type} (cv : OpenCV F S) (width height : Int) :
    ∀ (triangles : List (Vec6 F)) (image : Image),
      triangleLoop cv ⟨0, 0, width, height⟩ triangles image =
        image ++ specEdges width height (triangles.map (roundedVertices cv))
  | [], image => by simp [triangleLoop, specEdges]
  | t :: rest, image => by
    simp only [triangleLoop, List.map_cons, specEdges]
    by_cases hb : triangleInBounds width height (roundedVertices cv t)
    · have hc : (Rect.contains ⟨0, 0, width, height⟩ ⟨cv.cvRound t.v0, cv.cvRound t.v1⟩ &&
          Rect.contains ⟨0, 0, width, height⟩ ⟨cv.cvRound t.v2, cv.cvRound t.v3⟩ &&
          Rect.contains ⟨0, 0, width, height⟩ ⟨cv.cvRound t.v4, cv.cvRound t.v5⟩) = true := by
        simp only [Bool.and_eq_true, contains_iff_inBounds]
        exact ⟨⟨hb.1, hb.2.1⟩, hb.2.2⟩
      rw [if_pos hc, if_pos hb, triangleLoop_eq cv width height rest]
      simp [DrawLine, triangleEdges, roundedVertices]
    · have hc : ¬ (Rect.contains ⟨0, 0, width, height⟩ ⟨cv.cvRound t.v0, cv.cvRound t.v1⟩ &&
          Rect.contains ⟨0, 0, width, height⟩ ⟨cv.cvRound t.v2, cv.cvRound t.v3⟩ &&
          Rect.contains ⟨0, 0, width, height⟩ ⟨cv.cvRound t.v4, cv.cvRound t.v5⟩) = true := by
        simp only [Bool.and_eq_true, contains_iff_inBounds]
        intro h
        exact hb ⟨h.1.1, h.1.2, h.2⟩
      rw [if_neg hc, if_neg hb, triangleLoop_eq cv width height rest]

/-- The whole of `DrawDelaunayTriangles`: the image gets the discs of the points
handed to `insert` (when `drawPoints`) and then, when no OpenCV call throws, the
edges of the in-bounds triangles; the outcome is that of the OpenCV calls. -/
theorem DrawDelaunayTriangles_eq {F S : Type} (cv : OpenCV F S) (image : Image)
    (points : List Point) (width height : Int) (drawPoints : Bool) :
    DrawDelaunayTriangles cv image points width height drawPoints =
      (image ++
          (if drawPoints then
            pointDiscs (points.take (insertedCount cv ⟨0, 0, width, height⟩ points))
          else []) ++
          drawnEdges cv width height (triangulate cv ⟨0, 0, width, height⟩ points),
        outcome (triangulate cv ⟨0, 0, width, height⟩ points)) := by
  simp only [DrawDelaunayTriangles, triangulate, insertedCount, insertLoop_eq]
  cases h1 : cv.Subdiv2D ⟨0, 0, width, height⟩ with
  | error e => cases drawPoints <;> simp [drawnEdges, outcome, pointDiscs]
  | ok subdiv =>
    simp only
    cases h2 : insertAll cv subdiv points with
    | error e => simp [drawnEdges, outcome]
    | ok subdiv' =>
      simp only
      cases h3 : cv.getTriangleList subdiv' with
      | error e => simp [drawnEdges, outcome]
      | ok triangles => simp [triangleLoop_eq, drawnEdges, outcome]

/-- `DrawDelaunayTriangles` when no OpenCV call throws. -/
theorem DrawDelaunayTriangles_of_ok {F S : Type} (cv : OpenCV F S) (image : Image)
    (points : List Point) (width height : Int) (drawPoints : Bool) (triangles : List (Vec6 F))
    (htri : triangulate cv ⟨0, 0, width, height⟩ points = .ok triangles) :
    DrawDelaunayTriangles cv image points width height drawPoints =
      (image ++ (if drawPoints then pointDiscs points else []) ++
          specEdges width height (triangles.map (roundedVertices cv)), .ok ()) := by
  rw [DrawDelaunayTriangles_eq, insertedCount_of_ok cv _ points triangles htri, htri]
  simp [drawnEdges, outcome]

theorem specEdges_length (width height : Int) :
    ∀ (ts : List (Point × Point × Point)),
      (specEdges width height ts).length =
        3 * (ts.filter (fun t => decide (triangleInBounds width height t))).length
  | [] => rfl
  | t :: rest => by
    by_cases hb : triangleInBounds width height t
    · simp [specEdges, hb, triangleEdges, specEdges_length width height rest]
      omega
    · simp [specEdges, hb, specEdges_length width height rest]

theorem specEdges_mem (width height : Int) :
    ∀ (ts : List (Point × Point × Point)) (c : DrawCall), c ∈ specEdges width height ts →
      ∃ t ∈ ts, triangleInBounds width height t ∧ c ∈ triangleEdges t.1 t.2.1 t.2.2
  | [], c, h => by simp [specEdges] at h
  | t :: rest, c, h => by
    by_cases hb : triangleInBounds width height t
    · simp only [specEdges, if_pos hb, List.mem_append] at h
      rcases h with h | h
      · exact ⟨t, List.mem_cons_self _ _, hb, h⟩
      · obtain ⟨u, hu, hub, huc⟩ := specEdges_mem width height rest c h
        exact ⟨u, List.mem_cons_of_mem _ hu, hub, huc⟩
    · simp only [specEdges, if_neg hb] at h
      obtain ⟨u, hu, hub, huc⟩ := specEdges_mem width height rest c h
      exact ⟨u, List.mem_cons_of_mem _ hu, hub, huc⟩

theorem specEdges_empty_rect (width height : Int) (h : width ≤ 0 ∨ height ≤ 0) :
    ∀ (ts : List (Point × Point × Point)), specEdges width height ts = []
  | [] => rfl
  | t :: rest => by
    have hb : ¬ triangleInBounds width height t := by
      intro hb
      have := hb.1
      unfold inBounds at this
      omega
    simp [specEdges, hb, specEdges_empty_rect width height h rest]

/-! ## Drawing: the claims -/

/-- C4 (as amended).  For every triangle list the triangulator produces, and every
width and height, `DrawDelaunayTriangles` draws, after the discs of the points,
exactly: for each triangle in list order whose three rounded vertices all satisfy
`0 ≤ x < width` and `0 ≤ y < height`, the edges v1-v2, v2-v3, v3-v1, and nothing
for a triangle with a vertex out of bounds.  Every drawn edge belongs to a triangle
with all three vertices in bounds, and the number of edge draws is three times the
number of in-bounds triangles: shared edges are drawn once per triangle, so the
two triangles of the square of scenario A give 6 edge draws in every image of
width and height at least 11. -/
theorem C4_edges_of_in_bounds_triangles {F S : Type} (cv : OpenCV F S) (image : Image)
    (points : List Point) (width height : Int) (drawPoints : Bool) (triangles : List (Vec6 F))
    (htri : triangulate cv ⟨0, 0, width, height⟩ points = .ok triangles) :
    DrawDelaunayTriangles cv image points width height drawPoints =
        (image ++ (if drawPoints then pointDiscs points else []) ++
          specEdges width height (triangles.map (roundedVertices cv)), .ok ()) ∧
    (∀ c ∈ specEdges width height (triangles.map (roundedVertices cv)),
      ∃ t ∈ triangles.map (roundedVertices cv),
        triangleInBounds width height t ∧ c ∈ triangleEdges t.1 t.2.1 t.2.2) ∧
    (specEdges width height (triangles.map (roundedVertices cv))).length =
      3 * ((triangles.map (roundedVertices cv)).filter
        (fun t => decide (triangleInBounds width height t))).length ∧
    (∀ w h : Int, 11 ≤ w → 11 ≤ h →
      DrawDelaunayTriangles (cannedOpenCV squareTriangles) [] squarePoints w h false =
        ([DrawCall.line ⟨0, 0⟩ ⟨10, 0⟩ line_color 2 4, DrawCall.line ⟨10, 0⟩ ⟨10, 10⟩ line_color 2 4,
          DrawCall.line ⟨10, 10⟩ ⟨0, 0⟩ line_color 2 4, DrawCall.line ⟨0, 0⟩ ⟨10, 10⟩ line_color 2 4,
          DrawCall.line ⟨10, 10⟩ ⟨0, 10⟩ line_color 2 4, DrawCall.line ⟨0, 10⟩ ⟨0, 0⟩ line_color 2 4],
         .ok ())) := by
  refine ⟨DrawDelaunayTriangles_of_ok cv image points width height drawPoints triangles htri,
    specEdges_mem width height _, specEdges_length width height _, ?_⟩
  intro w h hw hh
  rw [DrawDelaunayTriangles_of_ok (cannedOpenCV squareTriangles) [] squarePoints w h false
    squareTriangles rfl]
  have h1 : triangleInBounds w h (⟨0, 0⟩, ⟨10, 0⟩, ⟨10, 10⟩) := by
    simp only [triangleInBounds, inBounds]; omega
  have h2 : triangleInBounds w h (⟨0, 0⟩, ⟨10, 10⟩, ⟨0, 10⟩) := by
    simp only [triangleInBounds, inBounds]; omega
  simp [squareTriangles, roundedVertices, cannedOpenCV, specEdges, h1, h2, triangleEdges]

/-- C4 at the two triangles of the square, in an image of 11 by 11. -/
theorem C4_edges_of_in_bounds_triangles_witness :
    triangulate (cannedOpenCV squareTriangles) ⟨0, 0, 11, 11⟩ squarePoints = .ok squareTriangles ∧
    (DrawDelaunayTriangles (cannedOpenCV squareTriangles) [] squarePoints 11 11 true =
        ([] ++ (if true = true then pointDiscs squarePoints else []) ++
          specEdges 11 11 (squareTriangles.map (roundedVertices (cannedOpenCV squareTriangles))),
         .ok ()) ∧
    (specEdges 11 11
        (squareTriangles.map (roundedVertices (cannedOpenCV squareTriangles)))).length = 6) := by
  have h := C4_edges_of_in_bounds_triangles (cannedOpenCV squareTriangles) [] squarePoints 11 11
    true squareTriangles (by decide)
  exact ⟨by decide, h.1, by decide⟩

/-- C4 (as stated, refuted).  In scenario A the rectangle is 10 by 10, so the
corners with `x = 10` or `y = 10` are out of bounds: for the two triangles of the
square, along either diagonal, `DrawDelaunayTriangles` draws no edge at all. -/
theorem C4_counterexample :
    triangulate (cannedOpenCV squareTriangles) ⟨0, 0, 10, 10⟩ squarePoints = .ok squareTriangles ∧
    DrawDelaunayTriangles (cannedOpenCV squareTriangles) [] squarePoints 10 10 false =
      ([], .ok ()) ∧
    DrawDelaunayTriangles (cannedOpenCV squareTrianglesOther) [] squarePoints 10 10 false =
      ([], .ok ()) := by
  decide

/-- C7 (as amended).  `DrawDelaunayTriangles` makes no check of `width` and
`height`.  With `width ≤ 0` or `height ≤ 0` it builds the subdivision over the
rectangle and inserts the points as for any rectangle: it fails exactly when one
of the OpenCV calls throws, with that error, and otherwise returns, having drawn
the discs of the points (when `drawPoints`) and no edge.  In either case the image
holds the discs of the points handed to `insert` (when `drawPoints`), and nothing
else. -/
theorem C7_no_bounds_check {F S : Type} (cv : OpenCV F S) (image : Image)
    (points : List Point) (width height : Int) (drawPoints : Bool)
    (hbad : width ≤ 0 ∨ height ≤ 0) :
    (DrawDelaunayTriangles cv image points width height drawPoints).2 =
        (match triangulate cv ⟨0, 0, width, height⟩ points with
         | .error e => .error e
         | .ok _ => .ok ()) ∧
    (∀ triangles, triangulate cv ⟨0, 0, width, height⟩ points = .ok triangles →
      DrawDelaunayTriangles cv image points width height drawPoints =
        (image ++ (if drawPoints then pointDiscs points else []), .ok ())) ∧
    (DrawDelaunayTriangles cv image points width height drawPoints).1 =
      image ++ (if drawPoints then
        pointDiscs (points.take (insertedCount cv ⟨0, 0, width, height⟩ points)) else []) := by
  refine ⟨?_, ?_, ?_⟩
  · rw [DrawDelaunayTriangles_eq]
    cases triangulate cv ⟨0, 0, width, height⟩ points <;> rfl
  · intro triangles htri
    rw [DrawDelaunayTriangles_of_ok cv image points width height drawPoints triangles htri,
      specEdges_empty_rect width height hbad]
    simp
  · rw [DrawDelaunayTriangles_eq]
    cases triangulate cv ⟨0, 0, width, height⟩ points with
    | error e => simp [drawnEdges]
    | ok triangles => simp [drawnEdges, specEdges_empty_rect width height hbad]

/-- C7 at a rectangle of width 0 and height 5. -/
theorem C7_no_bounds_check_witness :
    ((0 : Int) ≤ 0 ∨ (5 : Int) ≤ 0) ∧
    DrawDelaunayTriangles (cannedOpenCV squareTriangles) [] squarePoints 0 5 true =
      ([] ++ (if true = true then pointDiscs squarePoints else []), .ok ()) :=
  ⟨by decide,
    (C7_no_bounds_check (cannedOpenCV squareTriangles) [] squarePoints 0 5 true (by decide)).2.1
      squareTriangles (by decide)⟩

/-- C7 (as stated, refuted).  With width 0 and height 0, and with width -1 and height
-1, the call returns without an error. -/
theorem C7_counterexample :
    DrawDelaunayTriangles (cannedOpenCV [⟨0, 0, 0, 0, 0, 0⟩]) [] [] 0 0 true = ([], .ok ()) ∧
    DrawDelaunayTriangles (cannedOpenCV [⟨0, 0, 0, 0, 0, 0⟩]) [] [] (-1) (-1) true =
      ([], .ok ()) ∧
    DrawDelaunayTriangles (rangeCheckingOpenCV [⟨0, 0, 0, 0, 0, 0⟩]) [] [] 0 0 true =
      ([], .ok ()) := by
  decide

/-- C9 (as amended).  For every point sequence, width and height, both values of
`drawPoints` hand the same points to the subdivision, end with the same outcome
(the return, or the same exception) and draw the same edges, and `DrawPoints`
draws one disc per point in input order.  When no OpenCV call throws,
`DrawDelaunayTriangles` with `drawPoints` set gives what `DrawPoints` followed by
`DrawDelaunayTriangles` without it gives: the discs of all points, then the edges.
When an `insert` throws, the call with `drawPoints` set has drawn the discs of the
points handed to `insert` only, and `DrawPoints` followed by the call without it
the discs of all points. -/
theorem C9_interleaved_point_drawing {F S : Type} (cv : OpenCV F S) (image : Image)
    (points : List Point) (width height : Int) :
    (∀ triangles, triangulate cv ⟨0, 0, width, height⟩ points = .ok triangles →
      DrawDelaunayTriangles cv image points width height true =
        DrawDelaunayTriangles cv (DrawPoints image points) points width height false ∧
      DrawDelaunayTriangles cv image points width height true =
        (image ++ pointDiscs points ++
          specEdges width height (triangles.map (roundedVertices cv)), .ok ())) ∧
    DrawPoints image points = image ++ pointDiscs points ∧
    (∀ subdiv : S,
      (insertLoop cv true points image subdiv).2 = (insertLoop cv false points image subdiv).2) ∧
    ((DrawDelaunayTriangles cv image points width height true).2 =
        (DrawDelaunayTriangles cv image points width height false).2 ∧
      (DrawDelaunayTriangles cv image points width height true).2 =
        (DrawDelaunayTriangles cv (DrawPoints image points) points width height false).2) ∧
    (DrawDelaunayTriangles cv image points width height false).1 =
      image ++ drawnEdges cv width height (triangulate cv ⟨0, 0, width, height⟩ points) ∧
    (DrawDelaunayTriangles cv image points width height true).1 =
      image ++ pointDiscs (points.take (insertedCount cv ⟨0, 0, width, height⟩ points)) ++
        drawnEdges cv width height (triangulate cv ⟨0, 0, width, height⟩ points) ∧
    (DrawDelaunayTriangles cv (DrawPoints image points) points width height false).1 =
      image ++ pointDiscs points ++
        drawnEdges cv width height (triangulate cv ⟨0, 0, width, height⟩ points) ∧
    insertedCount cv ⟨0, 0, width, height⟩ points ≤ points.length := by
  refine ⟨?_, DrawPoints_eq points image, ?_, ⟨?_, ?_⟩, ?_, ?_, ?_,
    insertedCount_le cv _ points⟩
  · intro triangles htri
    rw [DrawDelaunayTriangles_of_ok cv image points width height true triangles htri,
      DrawDelaunayTriangles_of_ok cv (DrawPoints image points) points width height false
        triangles htri, DrawPoints_eq]
    simp
  · intro subdiv
    rw [insertLoop_eq, insertLoop_eq]
  · rw [DrawDelaunayTriangles_eq, DrawDelaunayTriangles_eq]
  · rw [DrawDelaunayTriangles_eq, DrawDelaunayTriangles_eq]
  · rw [DrawDelaunayTriangles_eq]
    simp
  · rw [DrawDelaunayTriangles_eq]
    simp
  · rw [DrawDelaunayTriangles_eq, DrawPoints_eq]
    simp

/-- C9 at the square in an image of 11 by 11, where no call throws. -/
theorem C9_interleaved_point_drawing_witness :
    triangulate (cannedOpenCV squareTriangles) ⟨0, 0, 11, 11⟩ squarePoints = .ok squareTriangles ∧
    DrawDelaunayTriangles (cannedOpenCV squareTriangles) [] squarePoints 11 11 true =
      DrawDelaunayTriangles (cannedOpenCV squareTriangles) (DrawPoints [] squarePoints)
        squarePoints 11 11 false :=
  ⟨by decide,
    ((C9_interleaved_point_drawing (cannedOpenCV squareTriangles) [] squarePoints 11 11).1
      squareTriangles (by decide)).1⟩

/-- C9 (as stated, refuted).  In the 10 by 10 rectangle of scenario A the corner
(10, 0) is outside, and an `insert` that checks the range throws at it: the call
with `drawPoints` set has drawn two discs, `DrawPoints` followed by the call
without it four. -/
theorem C9_counterexample :
    DrawDelaunayTriangles (rangeCheckingOpenCV squareTriangles) [] squarePoints 10 10 true =
      ([DrawCall.circle ⟨0, 0⟩ 5 dot_color (-1), DrawCall.circle ⟨10, 0⟩ 5 dot_color (-1)],
        .error ⟨-211⟩) ∧
    DrawDelaunayTriangles (rangeCheckingOpenCV squareTriangles) (DrawPoints [] squarePoints)
        squarePoints 10 10 false =
      ([DrawCall.circle ⟨0, 0⟩ 5 dot_color (-1), DrawCall.circle ⟨10, 0⟩ 5 dot_color (-1),
        DrawCall.circle ⟨10, 10⟩ 5 dot_color (-1), DrawCall.circle ⟨0, 10⟩ 5 dot_color (-1)],
        .error ⟨-211⟩) := by
  decide

/-! ## main: the claims -/

end FaceDrawer
